import Mathlib

/-!
Verification development for the osmium buffer-builder core
(`osmium::builder::Builder`, src/unnamed/part_000) and the
database connection-string assembly (`build_conninfo`,
src/src/command-line-parser.cpp).

The arena (`osmium::memory::Buffer`) and the record header
(`osmium::memory::Item`) are external collaborators of the core; their
thin contracts are modelled from the spec where noted.  Bytes are `Nat`
values below 256, the arena content is a `List Nat`, and a record
header's 32-bit `size` field is stored little-endian inside the arena
bytes, exactly as the C++ code manipulates it in place through
`reinterpret_cast`.
-/

namespace OsmBuilder

/-- readLE32 d p reads the 32-bit little-endian value stored at byte
position p of the byte list d (missing bytes read as 0). -/
def readLE32 (d : List Nat) (p : Nat) : Nat :=
  d.getD p 0 + 256 * d.getD (p + 1) 0 + 65536 * d.getD (p + 2) 0 +
    16777216 * d.getD (p + 3) 0

/-- writeLE32 d p v stores v mod 2^32 little-endian into the four bytes
at position p of d. -/
def writeLE32 (d : List Nat) (p : Nat) (v : Nat) : List Nat :=
  ((((d.set p (v % 256)).set (p + 1) (v / 256 % 256)).set
      (p + 2) (v / 65536 % 256)).set (p + 3) (v / 16777216 % 256))

theorem length_writeLE32 (d : List Nat) (p v : Nat) :
    (writeLE32 d p v).length = d.length := by
  simp [writeLE32]

theorem getD_set_of_ne (l : List Nat) (i j v : Nat) (h : i ≠ j) :
    (l.set i v).getD j 0 = l.getD j 0 := by
  simp [List.getD, List.getElem?_set_ne h]

theorem getD_set_self (l : List Nat) (i v : Nat) (h : i < l.length) :
    (l.set i v).getD i 0 = v := by
  simp [List.getD, List.getElem?_set_self', List.getElem?_eq_getElem h]

theorem getD_writeLE32_of_lt (d : List Nat) (p v i : Nat) (h : i < p) :
    (writeLE32 d p v).getD i 0 = d.getD i 0 := by
  unfold writeLE32
  rw [getD_set_of_ne _ _ _ _ (by omega), getD_set_of_ne _ _ _ _ (by omega),
    getD_set_of_ne _ _ _ _ (by omega), getD_set_of_ne _ _ _ _ (by omega)]

theorem getD_writeLE32_of_ge (d : List Nat) (p v i : Nat) (h : p + 4 ≤ i) :
    (writeLE32 d p v).getD i 0 = d.getD i 0 := by
  unfold writeLE32
  rw [getD_set_of_ne _ _ _ _ (by omega), getD_set_of_ne _ _ _ _ (by omega),
    getD_set_of_ne _ _ _ _ (by omega), getD_set_of_ne _ _ _ _ (by omega)]

theorem readLE32_writeLE32_self (d : List Nat) (p v : Nat)
    (h : p + 4 ≤ d.length) :
    readLE32 (writeLE32 d p v) p = v % 4294967296 := by
  unfold readLE32 writeLE32
  rw [getD_set_of_ne _ _ _ _ (by omega), getD_set_of_ne _ _ _ _ (by omega),
    getD_set_of_ne _ _ _ _ (by omega),
    getD_set_self _ _ _ (by omega),
    getD_set_of_ne _ _ _ _ (by omega), getD_set_of_ne _ _ _ _ (by omega),
    getD_set_self _ _ _ (by simp only [List.length_set]; omega),
    getD_set_of_ne _ _ _ _ (by omega),
    getD_set_self _ _ _ (by simp only [List.length_set]; omega),
    getD_set_self _ _ _ (by simp only [List.length_set]; omega)]
  omega

theorem readLE32_writeLE32_disjoint (d : List Nat) (p q v : Nat)
    (h : p + 4 ≤ q ∨ q + 4 ≤ p) :
    readLE32 (writeLE32 d p v) q = readLE32 d q := by
  unfold readLE32
  rcases h with h | h
  · rw [getD_writeLE32_of_ge _ _ _ _ (by omega),
      getD_writeLE32_of_ge _ _ _ _ (by omega),
      getD_writeLE32_of_ge _ _ _ _ (by omega),
      getD_writeLE32_of_ge _ _ _ _ (by omega)]
  · rw [getD_writeLE32_of_lt _ _ _ _ (by omega),
      getD_writeLE32_of_lt _ _ _ _ (by omega),
      getD_writeLE32_of_lt _ _ _ _ (by omega),
      getD_writeLE32_of_lt _ _ _ _ (by omega)]

theorem getD_append_left (d e : List Nat) (i : Nat) (h : i < d.length) :
    (d ++ e).getD i 0 = d.getD i 0 := by
  simp [List.getD, List.getElem?_append, h]

theorem readLE32_append (d e : List Nat) (p : Nat) (h : p + 4 ≤ d.length) :
    readLE32 (d ++ e) p = readLE32 d p := by
  unfold readLE32
  rw [getD_append_left _ _ _ (by omega), getD_append_left _ _ _ (by omega),
    getD_append_left _ _ _ (by omega), getD_append_left _ _ _ (by omega)]

/-- writeBytes d p bs overwrites the bytes of d starting at position p
with the byte list bs (the model of `std::copy_n` / `std::fill_n` into a
previously reserved region). -/
def writeBytes (d : List Nat) (p : Nat) (bs : List Nat) : List Nat :=
  match bs with
  | [] => d
  | c :: rest => writeBytes (d.set p c) (p + 1) rest

theorem set_append_length (d t : List Nat) (z c : Nat) :
    (d ++ z :: t).set d.length c = d ++ c :: t := by
  induction d with
  | nil => rfl
  | cons a as ih => simp [ih]

/-- Copying bs into freshly reserved space that starts right at the end
of d yields d ++ bs, with any bytes reserved beyond bs untouched. -/
theorem writeBytes_append_replicate (bs : List Nat) (e : List Nat) :
    ∀ d : List Nat,
      writeBytes (d ++ (List.replicate bs.length 0 ++ e)) d.length bs
        = d ++ (bs ++ e) := by
  induction bs with
  | nil => intro d; simp [writeBytes]
  | cons c rest ih =>
      intro d
      show writeBytes ((d ++ 0 :: (List.replicate rest.length 0 ++ e)).set
        d.length c) (d.length + 1) rest = d ++ (c :: (rest ++ e))
      rw [set_append_length]
      have h1 : d ++ c :: (List.replicate rest.length 0 ++ e)
          = (d ++ [c]) ++ (List.replicate rest.length 0 ++ e) := by simp
      have h2 : d.length + 1 = (d ++ [c]).length := by simp
      rw [h1, h2, ih (d ++ [c])]
      simp

/-- Modelled from the spec: `osmium::memory::align_bytes`, the alignment
boundary to which records are padded (8, as in the spec's worked
examples with alignment 8). -/
def align_bytes : Nat := 8

/-- Modelled from the spec: the arena (`osmium::memory::Buffer`,
external contract of the core).  `base` is the current backing-storage
address (`data()`), `data` the bytes up to the `written` boundary
(`written = data.length`), `committed` the finalized boundary, and
`builder_count` the debug-only open-depth counter. -/
structure Buffer where
  base : Nat
  data : List Nat
  committed : Nat
  builder_count : Nat
deriving Repr, DecidableEq

/-- written() of the arena: end of the reserved bytes. -/
def Buffer.written (b : Buffer) : Nat := b.data.length

/-- Modelled from the spec: `Buffer::reserve_space(n)` hands out n
writable bytes at the tail (modelled as zero-initialized fresh bytes);
`committed` and the existing bytes are untouched.  Relocation of the
backing storage is modelled separately by `Buffer.relocate`. -/
def Buffer.reserve_space (b : Buffer) (n : Nat) : Buffer :=
  { b with data := b.data ++ List.replicate n 0 }

/-- Modelled from the spec: arena growth may relocate the backing
storage; only the base address changes, offsets and content are kept. -/
def Buffer.relocate (b : Buffer) (newBase : Nat) : Buffer :=
  { b with base := newBase }

/-- Modelled from the spec: `Item::byte_size()` of the record header
that starts at byte offset pos in the arena: its 32-bit `size` field. -/
def Buffer.item_byte_size (b : Buffer) (pos : Nat) : Nat :=
  readLE32 b.data pos

/-- Modelled from the spec: `Item::add_size(delta)` on the record header
at byte offset pos: grows the 32-bit `size` field in place (uint32_t
wrap-around). -/
def Buffer.item_add_size (b : Buffer) (pos delta : Nat) : Buffer :=
  { b with data :=
      writeLE32 b.data pos ((readLE32 b.data pos + delta) % 4294967296) }

/-- Builder bookkeeping (class `osmium::builder::Builder`): the offset of
its record relative to the arena's `committed` boundary
(`m_item_offset`).  The buffer reference and the parent pointer are
represented by passing a `Buffer` and an ancestor chain explicitly. -/
structure Builder where
  item_offset : Nat
deriving Repr, DecidableEq

/-- An open chain of builders: the head is the innermost open builder,
the tail its parent chain (`m_parent` links), outermost last. -/
abbrev Chain := List Builder

/-- Byte offset of a builder's record header inside the arena:
`committed() + m_item_offset` (the offset part of `item_pos`). -/
def Builder.pos (b : Buffer) (bu : Builder) : Nat :=
  b.committed + bu.item_offset

/-- Builder::item_pos(): `m_buffer.data() + m_buffer.committed() +
m_item_offset`, recomputed from the current base on every use. -/
def Builder.item_pos (b : Buffer) (bu : Builder) : Nat :=
  b.base + b.committed + bu.item_offset

/-- Builder::size(): `item().byte_size()`, read from the header bytes. -/
def Builder.size (b : Buffer) (bu : Builder) : Nat :=
  b.item_byte_size (Builder.pos b bu)

/-- Builder::add_size(size): `item().add_size(size); if (m_parent)
m_parent->add_size(size);` — the recursion over the parent chain. -/
def add_size (b : Buffer) (chain : Chain) (delta : Nat) : Buffer :=
  match chain with
  | [] => b
  | bu :: parents =>
      add_size (b.item_add_size (Builder.pos b bu) delta) parents delta

/-- Builder::append(data, length): reserve length bytes at the tail and
copy the data there; returns length.  No size field is touched. -/
def append (b : Buffer) (bytes : List Nat) : Buffer × Nat :=
  let b1 := b.reserve_space bytes.length
  ({ b1 with data := writeBytes b1.data b.written bytes }, bytes.length)

/-- Builder::append_with_zero(data, length): reserve length + 1 bytes,
copy the data, and put a terminating 0 after it; returns length + 1. -/
def append_with_zero (b : Buffer) (bytes : List Nat) : Buffer × Nat :=
  let b1 := b.reserve_space (bytes.length + 1)
  let d := writeBytes b1.data b.written bytes
  ({ b1 with data := d.set (b.written + bytes.length) 0 }, bytes.length + 1)

/-- Builder::append(str) for a 0-terminated string: delegates to
`append(str, strlen(str) + 1)`.  A C string whose strlen is s.length is
the byte list s (0-free) followed by the terminator. -/
def append_str (b : Buffer) (s : List Nat) : Buffer × Nat :=
  append b (s ++ [0])

/-- Builder::add_padding(self): computes
`padding = align_bytes - size() % align_bytes`; when that is not the
sentinel `align_bytes`, fills that many zero bytes at the tail
(`std::fill_n(reserve_space(padding), padding, 0)`) and folds the count
into this record's size (self = true) or into the parent's only. -/
def add_padding (b : Buffer) (chain : Chain) (self : Bool) : Buffer :=
  match chain with
  | [] => b
  | bu :: parents =>
      let padding := align_bytes - Builder.size b bu % align_bytes
      if padding ≠ align_bytes then
        let b1 := b.reserve_space padding
        let b2 := { b1 with
          data := writeBytes b1.data b.written (List.replicate padding 0) }
        if self then
          add_size b2 (bu :: parents) padding
        else
          match parents with
          | [] => b2
          | p :: ps => add_size b2 (p :: ps) padding
      else b

/-- Modelled from the spec: a finished record (`osmium::memory::Item`):
its bytes, whose first four bytes hold the 32-bit `size` field. -/
structure Item where
  bytes : List Nat
deriving Repr, DecidableEq

/-- Item::byte_size() of a finished record. -/
def Item.byte_size (it : Item) : Nat := readLE32 it.bytes 0

/-- Item::padded_size(): byte_size rounded up to the next multiple of
align_bytes. -/
def Item.padded_size (it : Item) : Nat :=
  align_bytes * ((it.byte_size + align_bytes - 1) / align_bytes)

/-- Modelled from the spec: the arena's `append_record`
(`Buffer::add_item`): physically copies a finished sub-record's bytes at
the tail. -/
def Buffer.append_record (b : Buffer) (it : Item) : Buffer :=
  { b with data := b.data ++ it.bytes }

/-- Builder::add_item(item): `m_buffer.add_item(item);
add_size(item.padded_size());`. -/
def add_item (b : Buffer) (chain : Chain) (it : Item) : Buffer :=
  add_size (b.append_record it) chain it.padded_size

/-- Builder::Builder(buffer, parent, size): records
`m_item_offset = written() - committed()`, reserves `size` bytes for the
header, folds `size` into the parent chain (if any), and increments the
open-depth counter.  The header's `size` field being initialized to the
header size is modelled from the spec (the derived builder constructs
the concrete header type in the reserved bytes right after this). -/
def openBuilder (b : Buffer) (parents : Chain) (hsize : Nat) :
    Buffer × Builder :=
  let off := b.written - b.committed
  let b1 := b.reserve_space hsize
  let b2 := add_size b1 parents hsize
  let b3 := { b2 with builder_count := b2.builder_count + 1 }
  let b4 := { b3 with
    data := writeLE32 b3.data (b3.committed + off) hsize }
  (b4, ⟨off⟩)

/-- Builder::Builder with its instrumented-build assertions: with no
parent the arena's open-depth counter must be 0, with a parent it must
be exactly 1; a violated precondition fails fast (`none`). -/
def openChecked (b : Buffer) (parents : Chain) (hsize : Nat) :
    Option (Buffer × Builder) :=
  match parents with
  | [] =>
      if b.builder_count = 0 then some (openBuilder b [] hsize) else none
  | _ :: _ =>
      if b.builder_count = 1 then some (openBuilder b parents hsize)
      else none

/-- Builder::~Builder() in an instrumented build: decrements the
open-depth counter; nothing else. -/
def closeBuilder (b : Buffer) : Buffer :=
  { b with builder_count := b.builder_count - 1 }

/-- One call of the append family (`append`, `append_with_zero`, the
string overload of `append`). -/
inductive AppOp where
  | app (bs : List Nat)
  | appZero (bs : List Nat)
  | appStr (s : List Nat)
deriving Repr, DecidableEq

/-- Runs one append-family call. -/
def runApp (b : Buffer) : AppOp → Buffer × Nat
  | AppOp.app bs => append b bs
  | AppOp.appZero bs => append_with_zero b bs
  | AppOp.appStr s => append_str b s

/-- Runs a sequence of append-family calls, totalling the returned
lengths. -/
def runApps (b : Buffer) : List AppOp → Buffer × Nat
  | [] => (b, 0)
  | op :: rest =>
      let r := runApp b op
      let r2 := runApps r.1 rest
      (r2.1, r.2 + r2.2)

/-- One Builder operation, for the step semantics: opening a (sub-)
builder, an append-family call, padding, explicit size propagation,
attaching a finished sub-record, and destruction. -/
inductive BuildOp where
  | opn (hsize : Nat)
  | app (op : AppOp)
  | pad (self : Bool)
  | grow (delta : Nat)
  | attach (it : Item)
  | close
deriving Repr, DecidableEq

/-- Small-step semantics of a Builder operation on (arena, open chain).
Opening uses the instrumented-build constructor (`openChecked`) with the
innermost open builder as parent; the other operations act through the
innermost open builder and require one to be open. -/
def step (s : Buffer × Chain) (op : BuildOp) : Option (Buffer × Chain) :=
  match op, s with
  | BuildOp.opn hsize, (b, chain) =>
      (openChecked b chain hsize).map fun r => (r.1, r.2 :: chain)
  | BuildOp.app a, (b, chain) =>
      match chain with
      | [] => none
      | _ :: _ => some ((runApp b a).1, chain)
  | BuildOp.pad self, (b, chain) =>
      match chain with
      | [] => none
      | _ :: _ => some (add_padding b chain self, chain)
  | BuildOp.grow delta, (b, chain) =>
      match chain with
      | [] => none
      | _ :: _ => some (add_size b chain delta, chain)
  | BuildOp.attach it, (b, chain) =>
      match chain with
      | [] => none
      | _ :: _ => some (add_item b chain it, chain)
  | BuildOp.close, (b, chain) =>
      match chain with
      | [] => none
      | _ :: rest => some (closeBuilder b, rest)

/-- Runs a sequence of Builder operations. -/
def run (s : Buffer × Chain) : List BuildOp → Option (Buffer × Chain)
  | [] => some s
  | op :: rest => (step s op).bind fun s2 => run s2 rest

/-- The builder's 4-byte size field lies inside the already-reserved
bytes of the arena. -/
def FieldIn (b : Buffer) (bu : Builder) : Prop :=
  Builder.pos b bu + 4 ≤ b.written

/-- The 4-byte size fields of two builders do not overlap. -/
def FieldsDisjoint (b : Buffer) (x y : Builder) : Prop :=
  Builder.pos b x + 4 ≤ Builder.pos b y ∨
    Builder.pos b y + 4 ≤ Builder.pos b x

/-- Well-formed open chain: every open builder's size field is inside
the reserved bytes and the fields are pairwise disjoint. -/
def chainWF (b : Buffer) (chain : Chain) : Prop :=
  (∀ bu ∈ chain, FieldIn b bu) ∧ chain.Pairwise (FieldsDisjoint b)

instance (b : Buffer) (chain : Chain) : Decidable (chainWF b chain) := by
  unfold chainWF FieldIn FieldsDisjoint Builder.pos Buffer.written
  exact instDecidableAnd

@[simp] theorem item_add_size_committed (b : Buffer) (p δ : Nat) :
    (b.item_add_size p δ).committed = b.committed := rfl

@[simp] theorem item_add_size_base (b : Buffer) (p δ : Nat) :
    (b.item_add_size p δ).base = b.base := rfl

@[simp] theorem item_add_size_count (b : Buffer) (p δ : Nat) :
    (b.item_add_size p δ).builder_count = b.builder_count := rfl

@[simp] theorem item_add_size_written (b : Buffer) (p δ : Nat) :
    (b.item_add_size p δ).written = b.written := by
  simp [Buffer.item_add_size, Buffer.written, length_writeLE32]

@[simp] theorem add_size_committed (b : Buffer) (chain : Chain) (δ : Nat) :
    (add_size b chain δ).committed = b.committed := by
  induction chain generalizing b with
  | nil => rfl
  | cons c rest ih => simp [add_size, ih]

@[simp] theorem add_size_base (b : Buffer) (chain : Chain) (δ : Nat) :
    (add_size b chain δ).base = b.base := by
  induction chain generalizing b with
  | nil => rfl
  | cons c rest ih => simp [add_size, ih]

@[simp] theorem add_size_count (b : Buffer) (chain : Chain) (δ : Nat) :
    (add_size b chain δ).builder_count = b.builder_count := by
  induction chain generalizing b with
  | nil => rfl
  | cons c rest ih => simp [add_size, ih]

@[simp] theorem add_size_written (b : Buffer) (chain : Chain) (δ : Nat) :
    (add_size b chain δ).written = b.written := by
  induction chain generalizing b with
  | nil => rfl
  | cons c rest ih => simp [add_size, ih]

@[simp] theorem pos_item_add_size (b : Buffer) (p δ : Nat) (bu : Builder) :
    Builder.pos (b.item_add_size p δ) bu = Builder.pos b bu := rfl

@[simp] theorem pos_add_size (b : Buffer) (chain : Chain) (δ : Nat)
    (bu : Builder) : Builder.pos (add_size b chain δ) bu = Builder.pos b bu := by
  simp [Builder.pos]

/-- Item::add_size grows the size field it targets (uint32 wrap). -/
theorem size_item_add_size_self (b : Buffer) (bu : Builder) (δ : Nat)
    (hin : FieldIn b bu) :
    Builder.size (b.item_add_size (Builder.pos b bu) δ) bu
      = (Builder.size b bu + δ) % 4294967296 := by
  have h := readLE32_writeLE32_self b.data (Builder.pos b bu)
    ((readLE32 b.data (Builder.pos b bu) + δ) % 4294967296) hin
  show readLE32 (writeLE32 b.data (Builder.pos b bu)
      ((readLE32 b.data (Builder.pos b bu) + δ) % 4294967296))
      (Builder.pos b bu) = (readLE32 b.data (Builder.pos b bu) + δ)
        % 4294967296
  rw [h]
  omega

/-- Item::add_size leaves a disjoint size field alone. -/
theorem size_item_add_size_other (b : Buffer) (bu x : Builder) (δ : Nat)
    (hd : FieldsDisjoint b bu x) :
    Builder.size (b.item_add_size (Builder.pos b bu) δ) x
      = Builder.size b x := by
  show readLE32 (writeLE32 b.data (Builder.pos b bu)
      ((readLE32 b.data (Builder.pos b bu) + δ) % 4294967296))
      (Builder.pos b x) = readLE32 b.data (Builder.pos b x)
  exact readLE32_writeLE32_disjoint _ _ _ _ hd

/-- Builder::add_size does not touch a size field disjoint from every
field of the chain it propagates along. -/
theorem add_size_size_notmem (chain : Chain) :
    ∀ (b : Buffer) (δ : Nat) (x : Builder),
      (∀ bu ∈ chain, FieldsDisjoint b bu x) →
      Builder.size (add_size b chain δ) x = Builder.size b x := by
  induction chain with
  | nil => intro b δ x _; rfl
  | cons c rest ih =>
      intro b δ x hd
      show Builder.size (add_size (b.item_add_size (Builder.pos b c) δ)
        rest δ) x = Builder.size b x
      rw [ih _ δ x (by
        intro bu hbu
        have := hd bu (List.mem_cons_of_mem _ hbu)
        simpa [FieldsDisjoint] using this)]
      exact size_item_add_size_other b c x δ (hd c (List.mem_cons_self c rest))

/-- Builder::add_size(delta) adds delta to this record's size field and,
through the parent recursion, to every ancestor's size field (absent
uint32 overflow). -/
theorem add_size_sizes (chain : Chain) :
    ∀ (b : Buffer) (δ : Nat),
      chainWF b chain →
      (∀ bu ∈ chain, Builder.size b bu + δ < 4294967296) →
      ∀ bu ∈ chain,
        Builder.size (add_size b chain δ) bu = Builder.size b bu + δ := by
  induction chain with
  | nil => intro b δ _ _ bu h; cases h
  | cons c rest ih =>
      intro b δ hwf hov bu hbu
      obtain ⟨hin, hpw⟩ := hwf
      have hpwc := (List.pairwise_cons.mp hpw).1
      have hpwr := (List.pairwise_cons.mp hpw).2
      show Builder.size (add_size (b.item_add_size (Builder.pos b c) δ)
        rest δ) bu = Builder.size b bu + δ
      rcases List.mem_cons.mp hbu with rfl | hmem
      · rw [add_size_size_notmem rest _ δ bu (by
          intro r hr
          have := hpwc r hr
          simpa [FieldsDisjoint] using this.symm)]
        rw [size_item_add_size_self b bu δ (hin bu (by simp))]
        exact Nat.mod_eq_of_lt (hov bu (by simp))
      · have hwf2 : chainWF (b.item_add_size (Builder.pos b c) δ) rest := by
          constructor
          · intro r hr
            have := hin r (List.mem_cons_of_mem _ hr)
            simpa [FieldIn] using this
          · have : ∀ x y : Builder,
                FieldsDisjoint b x y →
                FieldsDisjoint (b.item_add_size (Builder.pos b c) δ) x y := by
              intro x y h
              simpa [FieldsDisjoint] using h
            exact List.Pairwise.imp (this _ _) hpwr
        have hov2 : ∀ r ∈ rest,
            Builder.size (b.item_add_size (Builder.pos b c) δ) r + δ
              < 4294967296 := by
          intro r hr
          rw [size_item_add_size_other b c r δ (hpwc r hr)]
          exact hov r (List.mem_cons_of_mem _ hr)
        rw [ih _ δ hwf2 hov2 bu hmem]
        rw [size_item_add_size_other b c bu δ (hpwc bu hmem)]

/-- Builder::append only appends the given bytes at the tail and
returns their count; nothing else of the arena changes. -/
theorem append_eq (b : Buffer) (bytes : List Nat) :
    append b bytes = ({ b with data := b.data ++ bytes }, bytes.length) := by
  have h := writeBytes_append_replicate bytes [] b.data
  simp only [List.append_nil] at h
  simp only [append, Buffer.reserve_space, Buffer.written]
  rw [h]

/-- Builder::append_with_zero appends the given bytes plus one 0 byte
and returns length + 1; nothing else of the arena changes. -/
theorem append_with_zero_eq (b : Buffer) (bytes : List Nat) :
    append_with_zero b bytes
      = ({ b with data := b.data ++ (bytes ++ [0]) }, bytes.length + 1) := by
  have h := writeBytes_append_replicate bytes [0] b.data
  have hrep : List.replicate (bytes.length + 1) (0 : Nat)
      = List.replicate bytes.length 0 ++ [0] := by
    simp [List.replicate_succ']
  simp only [append_with_zero, Buffer.reserve_space, Buffer.written]
  rw [hrep, h]
  have hset : (b.data ++ (bytes ++ [0])).set (b.data.length + bytes.length) 0
      = b.data ++ (bytes ++ [0]) := by
    have h0 := set_append_length (b.data ++ bytes) [] 0 0
    simp only [List.append_assoc] at h0
    simp [h0]
  rw [hset]

/-- Builder::append(str) appends the string's bytes including its
terminator and returns strlen + 1. -/
theorem append_str_eq (b : Buffer) (s : List Nat) :
    append_str b s
      = ({ b with data := b.data ++ (s ++ [0]) }, s.length + 1) := by
  unfold append_str
  rw [append_eq]
  simp

/-- The bytes one append-family call adds at the tail. -/
def AppOp.payload : AppOp → List Nat
  | AppOp.app bs => bs
  | AppOp.appZero bs => bs ++ [0]
  | AppOp.appStr s => s ++ [0]

theorem runApp_eq (b : Buffer) (op : AppOp) :
    runApp b op
      = ({ b with data := b.data ++ op.payload }, op.payload.length) := by
  cases op with
  | app bs => simpa [runApp, AppOp.payload] using append_eq b bs
  | appZero bs =>
      simpa [runApp, AppOp.payload] using append_with_zero_eq b bs
  | appStr s => simp [runApp, AppOp.payload, append_str_eq b s]

/-- A sequence of append-family calls appends the concatenation of the
individual payloads at the tail and returns the total length; no size
field, offset or counter changes. -/
theorem runApps_eq (ops : List AppOp) :
    ∀ b : Buffer, runApps b ops
      = ({ b with data := b.data ++ (ops.map AppOp.payload).flatten },
          (ops.map AppOp.payload).flatten.length) := by
  induction ops with
  | nil => intro b; simp [runApps]
  | cons op rest ih =>
      intro b
      show ((runApps (runApp b op).1 rest).1,
        (runApp b op).2 + (runApps (runApp b op).1 rest).2) = _
      rw [runApp_eq, ih]
      simp

theorem getD_item_add_size (b : Buffer) (p δ i : Nat)
    (h : i < p ∨ p + 4 ≤ i) :
    (b.item_add_size p δ).data.getD i 0 = b.data.getD i 0 := by
  rcases h with h | h
  · exact getD_writeLE32_of_lt _ _ _ _ h
  · exact getD_writeLE32_of_ge _ _ _ _ h

/-- Builder::add_size only writes inside the 4-byte size fields of the
chain it propagates along. -/
theorem add_size_getD (chain : Chain) :
    ∀ (b : Buffer) (δ i : Nat),
      (∀ bu ∈ chain, i < Builder.pos b bu ∨ Builder.pos b bu + 4 ≤ i) →
      (add_size b chain δ).data.getD i 0 = b.data.getD i 0 := by
  induction chain with
  | nil => intro b δ i _; rfl
  | cons c rest ih =>
      intro b δ i h
      show (add_size (b.item_add_size (Builder.pos b c) δ) rest δ).data.getD
        i 0 = b.data.getD i 0
      rw [ih _ δ i (by
        intro bu hbu
        have := h bu (List.mem_cons_of_mem _ hbu)
        simpa [Builder.pos] using this)]
      exact getD_item_add_size b _ δ i (h c (List.mem_cons_self c rest))

theorem drop_writeLE32 (d : List Nat) (p v n : Nat) (h : p + 4 ≤ n) :
    (writeLE32 d p v).drop n = d.drop n := by
  unfold writeLE32
  rw [List.drop_set_of_lt _ _ (by omega : p + 3 < n),
    List.drop_set_of_lt _ _ (by omega : p + 2 < n),
    List.drop_set_of_lt _ _ (by omega : p + 1 < n),
    List.drop_set_of_lt _ _ (by omega : p < n)]

/-- Builder::add_size leaves the bytes from position n on unchanged when
all the targeted size fields lie below n. -/
theorem add_size_drop (chain : Chain) :
    ∀ (b : Buffer) (δ n : Nat),
      (∀ bu ∈ chain, Builder.pos b bu + 4 ≤ n) →
      (add_size b chain δ).data.drop n = b.data.drop n := by
  induction chain with
  | nil => intro b δ n _; rfl
  | cons c rest ih =>
      intro b δ n h
      show (add_size (b.item_add_size (Builder.pos b c) δ) rest δ).data.drop
        n = b.data.drop n
      rw [ih _ δ n (by
        intro bu hbu
        have := h bu (List.mem_cons_of_mem _ hbu)
        simpa [Builder.pos] using this)]
      exact drop_writeLE32 _ _ _ _ (h c (List.mem_cons_self c rest))

@[simp] theorem reserve_space_committed (b : Buffer) (n : Nat) :
    (b.reserve_space n).committed = b.committed := rfl

@[simp] theorem reserve_space_base (b : Buffer) (n : Nat) :
    (b.reserve_space n).base = b.base := rfl

@[simp] theorem reserve_space_count (b : Buffer) (n : Nat) :
    (b.reserve_space n).builder_count = b.builder_count := rfl

@[simp] theorem reserve_space_written (b : Buffer) (n : Nat) :
    (b.reserve_space n).written = b.written + n := by
  simp [Buffer.reserve_space, Buffer.written]

theorem openBuilder_offset (b : Buffer) (parents : Chain) (H : Nat) :
    (openBuilder b parents H).2 = ⟨b.written - b.committed⟩ := rfl

theorem openBuilder_count (b : Buffer) (parents : Chain) (H : Nat) :
    (openBuilder b parents H).1.builder_count = b.builder_count + 1 := by
  show (add_size (b.reserve_space H) parents H).builder_count + 1
    = b.builder_count + 1
  simp

theorem openBuilder_committed (b : Buffer) (parents : Chain) (H : Nat) :
    (openBuilder b parents H).1.committed = b.committed := by
  show (add_size (b.reserve_space H) parents H).committed = b.committed
  simp

theorem openBuilder_base (b : Buffer) (parents : Chain) (H : Nat) :
    (openBuilder b parents H).1.base = b.base := by
  show (add_size (b.reserve_space H) parents H).base = b.base
  simp

theorem openBuilder_written (b : Buffer) (parents : Chain) (H : Nat) :
    (openBuilder b parents H).1.written = b.written + H := by
  show (writeLE32 (add_size (b.reserve_space H) parents H).data
    ((add_size (b.reserve_space H) parents H).committed
      + (b.written - b.committed)) H).length = b.written + H
  rw [length_writeLE32]
  have := add_size_written (b.reserve_space H) parents H
  simp [Buffer.written, Buffer.reserve_space] at this ⊢
  omega

/-- Opening a builder leaves its freshly initialized header size field
holding the header size. -/
theorem openBuilder_size (b : Buffer) (parents : Chain) (H : Nat)
    (hcw : b.committed ≤ b.written) (h4 : 4 ≤ H) (hH : H < 4294967296) :
    Builder.size (openBuilder b parents H).1 (openBuilder b parents H).2
      = H := by
  have hlen : (add_size (b.reserve_space H) parents H).data.length
      = b.written + H := by
    have := add_size_written (b.reserve_space H) parents H
    simp [Buffer.written, Buffer.reserve_space] at this ⊢
    omega
  show readLE32 (writeLE32 (add_size (b.reserve_space H) parents H).data
      ((add_size (b.reserve_space H) parents H).committed
        + (b.written - b.committed)) H)
      ((add_size (b.reserve_space H) parents H).committed
        + (b.written - b.committed)) = H
  rw [add_size_committed, reserve_space_committed,
    show b.committed + (b.written - b.committed) = b.written by omega,
    readLE32_writeLE32_self _ _ _ (by omega)]
  exact Nat.mod_eq_of_lt hH

instance (b : Buffer) (bu : Builder) : Decidable (FieldIn b bu) := by
  unfold FieldIn Builder.pos Buffer.written
  infer_instance

@[simp] theorem append_record_committed (b : Buffer) (it : Item) :
    (b.append_record it).committed = b.committed := rfl

@[simp] theorem append_record_base (b : Buffer) (it : Item) :
    (b.append_record it).base = b.base := rfl

@[simp] theorem append_record_count (b : Buffer) (it : Item) :
    (b.append_record it).builder_count = b.builder_count := rfl

theorem size_append_record (b : Buffer) (it : Item) (bu : Builder)
    (hin : FieldIn b bu) :
    Builder.size (b.append_record it) bu = Builder.size b bu := by
  show readLE32 (b.data ++ it.bytes) (Builder.pos b bu)
    = readLE32 b.data (Builder.pos b bu)
  exact readLE32_append _ _ _ hin

/-- Example arena for the concrete witnesses: committed boundary 0, one
16-byte record (header size field 16) at offset 0 with an 8-byte
sub-record (header size field 8) at offset 16. -/
def exBuf : Buffer :=
  { base := 1000
    data := [16, 0, 0, 0] ++ List.replicate 12 0
      ++ ([8, 0, 0, 0] ++ List.replicate 4 0)
    committed := 0
    builder_count := 2 }

/-- The open chain of `exBuf`: the sub-record's builder (offset 16) with
its parent (offset 0). -/
def exChain : Chain := [⟨16⟩, ⟨0⟩]

/-- C1: Builder::add_size(delta) — the spec's `grow(delta)` — increases
this open builder's header size field by exactly delta and recurses to
the parent (if any) with the same delta, so every ancestor's size field
also increases by exactly delta (fields well-formed, no uint32
overflow). -/
theorem C1_grow_propagates (b : Buffer) (bu : Builder) (parents : Chain)
    (delta : Nat) (hwf : chainWF b (bu :: parents))
    (hov : ∀ x ∈ bu :: parents, Builder.size b x + delta < 4294967296) :
    ∀ x ∈ bu :: parents,
      Builder.size (add_size b (bu :: parents) delta) x
        = Builder.size b x + delta :=
  add_size_sizes (bu :: parents) b delta hwf hov

/-- Witness for C1: growing the open sub-builder of `exBuf` by 5 bumps
its size field (8 → 13) and its parent's (16 → 21) by exactly 5. -/
theorem C1_grow_propagates_witness :
    Builder.size (add_size exBuf exChain 5) ⟨16⟩
        = Builder.size exBuf ⟨16⟩ + 5
      ∧ Builder.size (add_size exBuf exChain 5) ⟨0⟩
        = Builder.size exBuf ⟨0⟩ + 5 :=
  ⟨C1_grow_propagates exBuf ⟨16⟩ [⟨0⟩] 5 (by decide) (by decide) ⟨16⟩
      (by decide),
    C1_grow_propagates exBuf ⟨16⟩ [⟨0⟩] 5 (by decide) (by decide) ⟨0⟩
      (by decide)⟩

/-- C3: Builder::add_padding on a builder whose current size is a
multiple of the alignment boundary is the identity, for either value of
`self`: the computed padding equals `align_bytes`, which the guard
treats as the "no padding needed" sentinel, so no padding byte is
written and no size field (own, parent's, or any ancestor's) changes. -/
theorem C3_pad_aligned (b : Buffer) (bu : Builder) (parents : Chain)
    (self : Bool) (hal : Builder.size b bu % align_bytes = 0) :
    add_padding b (bu :: parents) self = b := by
  unfold add_padding
  simp [hal]

/-- Witness for C3: the open sub-builder of `exBuf` has size 8 (aligned
to the boundary 8); padding it with self = false and with self = true
changes nothing. -/
theorem C3_pad_aligned_witness :
    add_padding exBuf exChain false = exBuf
      ∧ add_padding exBuf exChain true = exBuf :=
  ⟨C3_pad_aligned exBuf ⟨16⟩ [⟨0⟩] false (by decide),
    C3_pad_aligned exBuf ⟨16⟩ [⟨0⟩] true (by decide)⟩

/-- C5: Builder::add_item(item) appends the finished record's bytes at
the arena tail (through the arena's append_record) and increases the
attaching builder's size field, and every ancestor's, by exactly the
record's padded size. -/
theorem C5_attach (b : Buffer) (chain : Chain) (it : Item)
    (hwf : chainWF b chain)
    (hov : ∀ x ∈ chain,
      Builder.size b x + it.padded_size < 4294967296) :
    (add_item b chain it).data.length = b.data.length + it.bytes.length
    ∧ (add_item b chain it).data.drop b.data.length = it.bytes
    ∧ ∀ x ∈ chain, Builder.size (add_item b chain it) x
        = Builder.size b x + it.padded_size := by
  obtain ⟨hin, hpw⟩ := hwf
  have hwf2 : chainWF (b.append_record it) chain := by
    constructor
    · intro x hx
      have := hin x hx
      simp only [FieldIn, Buffer.written] at this ⊢
      show Builder.pos b x + 4 ≤ (b.data ++ it.bytes).length
      simp only [List.length_append]
      omega
    · have himp : ∀ x y : Builder, FieldsDisjoint b x y →
          FieldsDisjoint (b.append_record it) x y := by
        intro x y h
        simpa [FieldsDisjoint, Builder.pos] using h
      exact List.Pairwise.imp (himp _ _) hpw
  have hsz : ∀ x ∈ chain,
      Builder.size (b.append_record it) x = Builder.size b x := by
    intro x hx
    exact size_append_record b it x (hin x hx)
  refine ⟨?_, ?_, ?_⟩
  · have h1 := add_size_written (b.append_record it) chain it.padded_size
    simp only [Buffer.written] at h1
    show (add_size (b.append_record it) chain it.padded_size).data.length
      = b.data.length + it.bytes.length
    rw [h1]
    show (b.data ++ it.bytes).length = _
    simp
  · show (add_size (b.append_record it) chain it.padded_size).data.drop
      b.data.length = it.bytes
    rw [add_size_drop chain (b.append_record it) it.padded_size
      b.data.length (by
        intro x hx
        have := hin x hx
        simpa [FieldIn, Buffer.written, Builder.pos] using this)]
    show (b.data ++ it.bytes).drop b.data.length = it.bytes
    simp
  · intro x hx
    have h2 := add_size_sizes chain (b.append_record it) it.padded_size
      hwf2 (by
        intro y hy
        rw [hsz y hy]
        exact hov y hy) x hx
    show Builder.size (add_size (b.append_record it) chain it.padded_size)
      x = Builder.size b x + it.padded_size
    rw [h2, hsz x hx]

/-- Witness for C5: attaching a finished 12-byte-size record (padded
size 16) to the open chain of `exBuf` appends its bytes at the tail and
grows both open size fields by 16. -/
theorem C5_attach_witness :
    (add_item exBuf exChain ⟨[12, 0, 0, 0] ++ List.replicate 12
        0⟩).data.length = exBuf.data.length + 16
    ∧ (add_item exBuf exChain ⟨[12, 0, 0, 0] ++ List.replicate 12
        0⟩).data.drop exBuf.data.length
      = [12, 0, 0, 0] ++ List.replicate 12 0
    ∧ Builder.size (add_item exBuf exChain ⟨[12, 0, 0, 0]
        ++ List.replicate 12 0⟩) ⟨16⟩ = Builder.size exBuf ⟨16⟩ + 16 := by
  have h := C5_attach exBuf exChain ⟨[12, 0, 0, 0] ++ List.replicate 12 0⟩
    (by decide) (by decide)
  exact ⟨by rw [h.1]; decide, h.2.1, h.2.2 ⟨16⟩ (by decide)⟩

/-- C6: the append family copies its input verbatim at the arena tail
and returns the number of bytes placed there — `append(bytes, L)` the L
bytes returning L, `append_with_zero(bytes, L)` the L bytes plus exactly
one terminating 0 byte returning L + 1, and the string overload of
`append` the string's bytes including the terminator returning
strlen + 1 — and none of them changes any open record's size field. -/
theorem C6_append_family (b : Buffer) (bytes s : List Nat) :
    (append b bytes).1.data = b.data ++ bytes
    ∧ (append b bytes).2 = bytes.length
    ∧ (append_with_zero b bytes).1.data = b.data ++ (bytes ++ [0])
    ∧ (append_with_zero b bytes).2 = bytes.length + 1
    ∧ (append_str b s).1.data = b.data ++ (s ++ [0])
    ∧ (append_str b s).2 = s.length + 1
    ∧ ∀ bu : Builder, FieldIn b bu →
        Builder.size (append b bytes).1 bu = Builder.size b bu
        ∧ Builder.size (append_with_zero b bytes).1 bu
          = Builder.size b bu
        ∧ Builder.size (append_str b s).1 bu = Builder.size b bu := by
  refine ⟨by rw [append_eq], by rw [append_eq],
    by rw [append_with_zero_eq], by rw [append_with_zero_eq],
    by rw [append_str_eq], by rw [append_str_eq], ?_⟩
  intro bu hin
  simp only [FieldIn, Buffer.written] at hin
  refine ⟨?_, ?_, ?_⟩
  · rw [append_eq]
    exact readLE32_append _ _ _ hin
  · rw [append_with_zero_eq]
    exact readLE32_append _ _ _ hin
  · rw [append_str_eq]
    exact readLE32_append _ _ _ hin

/-- Witness for C6 on `exBuf` with payload [1, 2, 3] and string bytes
[65, 66], checking the placed bytes, the returned lengths, and the
untouched size field of the open sub-builder. -/
theorem C6_append_family_witness :
    (append exBuf [1, 2, 3]).1.data = exBuf.data ++ [1, 2, 3]
    ∧ (append exBuf [1, 2, 3]).2 = 3
    ∧ (append_with_zero exBuf [1, 2, 3]).1.data
      = exBuf.data ++ ([1, 2, 3] ++ [0])
    ∧ (append_with_zero exBuf [1, 2, 3]).2 = 4
    ∧ (append_str exBuf [65, 66]).1.data = exBuf.data ++ ([65, 66] ++ [0])
    ∧ (append_str exBuf [65, 66]).2 = 3
    ∧ Builder.size (append exBuf [1, 2, 3]).1 ⟨16⟩
      = Builder.size exBuf ⟨16⟩ := by
  have h := C6_append_family exBuf [1, 2, 3] [65, 66]
  exact ⟨h.1, h.2.1, h.2.2.1, h.2.2.2.1, h.2.2.2.2.1, h.2.2.2.2.2.1,
    (h.2.2.2.2.2.2 ⟨16⟩ (by decide)).1⟩

/-- C2: on a freshly opened top-level builder whose header size field is
initialized to H, a sequence of append-family calls whose returned
lengths total L followed by one grow(L) leaves size() = H + L. -/
theorem C2_size_after_appends (b : Buffer) (H : Nat) (ops : List AppOp)
    (hcw : b.committed ≤ b.written) (h4 : 4 ≤ H) (hH : H < 4294967296)
    (hov : H + (runApps (openBuilder b [] H).1 ops).2 < 4294967296) :
    Builder.size
      (add_size (runApps (openBuilder b [] H).1 ops).1
        [(openBuilder b [] H).2] (runApps (openBuilder b [] H).1 ops).2)
      (openBuilder b [] H).2
      = H + (runApps (openBuilder b [] H).1 ops).2 := by
  rw [runApps_eq ops (openBuilder b [] H).1] at hov ⊢
  set b1 := (openBuilder b [] H).1 with hb1
  set E := (ops.map AppOp.payload).flatten with hE
  set bu := (openBuilder b [] H).2 with hbu
  have hpos : Builder.pos b1 bu = b.written := by
    rw [hbu, openBuilder_offset]
    show b1.committed + (b.written - b.committed) = b.written
    rw [hb1, openBuilder_committed]
    omega
  have hw1 : b1.written = b.written + H := openBuilder_written b [] H
  have hsz1 : Builder.size b1 bu = H := openBuilder_size b [] H hcw h4 hH
  have hsz2 : Builder.size { b1 with data := b1.data ++ E } bu
      = Builder.size b1 bu := by
    show readLE32 (b1.data ++ E) (Builder.pos b1 bu)
      = readLE32 b1.data (Builder.pos b1 bu)
    refine readLE32_append _ _ _ ?_
    have : b1.data.length = b.written + H := hw1
    omega
  have hwf : chainWF { b1 with data := b1.data ++ E } [bu] := by
    constructor
    · intro x hx
      rw [List.mem_singleton] at hx
      subst hx
      show Builder.pos b1 bu + 4 ≤ (b1.data ++ E).length
      have : b1.data.length = b.written + H := hw1
      simp only [List.length_append]
      omega
    · exact List.pairwise_singleton _ _
  have h3 := add_size_sizes [bu] { b1 with data := b1.data ++ E }
    E.length hwf (by
      intro y hy
      rw [List.mem_singleton] at hy
      subst hy
      rw [hsz2, hsz1]
      exact hov) bu (List.mem_singleton_self bu)
  rw [h3, hsz2, hsz1]

/-- Witness for C2: open a top-level builder with header size 8 on an
empty arena, append [1, 2, 3] and then [4] with a terminator (returned
lengths 3 + 2 = 5), grow by 5: the size field reads 8 + 5. -/
theorem C2_size_after_appends_witness :
    Builder.size
      (add_size
        (runApps (openBuilder ⟨0, [], 0, 0⟩ [] 8).1
          [AppOp.app [1, 2, 3], AppOp.appZero [4]]).1
        [(openBuilder ⟨0, [], 0, 0⟩ [] 8).2]
        (runApps (openBuilder ⟨0, [], 0, 0⟩ [] 8).1
          [AppOp.app [1, 2, 3], AppOp.appZero [4]]).2)
      (openBuilder ⟨0, [], 0, 0⟩ [] 8).2
      = 8 + (runApps (openBuilder ⟨0, [], 0, 0⟩ [] 8).1
          [AppOp.app [1, 2, 3], AppOp.appZero [4]]).2 :=
  C2_size_after_appends ⟨0, [], 0, 0⟩ 8
    [AppOp.app [1, 2, 3], AppOp.appZero [4]]
    (by decide) (by decide) (by decide) (by decide)

/-- The C4 scenario, run through the checked step semantics on an empty
arena: open parent (header 16), open child (header 8), append 10 bytes,
grow(10), pad(false), destroy the child. -/
def c4ops : List BuildOp :=
  [BuildOp.opn 16, BuildOp.opn 8,
    BuildOp.app (AppOp.app (List.replicate 10 7)),
    BuildOp.grow 10, BuildOp.pad false, BuildOp.close]

/-- Arena and chain after the C4 scenario. -/
def c4run : Option (Buffer × Chain) := run (⟨0, [], 0, 0⟩, []) c4ops

/-- Counterexample to C4: in the claimed scenario the parent's size
field ends at 40, not 30 — the child's grow(10) already propagated the
10 payload bytes into the parent (24 → 34) before pad(false) added the
6 padding bytes (34 → 40).  The child does end unchanged at 18. -/
theorem C4_counterexample :
    (c4run.map fun s => Builder.size s.1 ⟨0⟩) = some 40
    ∧ ¬ (c4run.map fun s => Builder.size s.1 ⟨0⟩) = some 30
    ∧ (c4run.map fun s => Builder.size s.1 ⟨16⟩) = some 18 := by
  decide

/-- C4 amended: parent header 16; opening the child (header 8) makes the
parent 24 and the child 8; the child's grow(10) propagates to the parent
too, so child 18 and parent 34; pad(false) computes 6 padding bytes and
folds them into the parent only, so parent 40, child unchanged 18;
destroying the child decrements the open count and leaves the parent's
size at 40. -/
theorem C4_amended_sizes :
    ((run (⟨0, [], 0, 0⟩, []) (c4ops.take 2)).map fun s =>
      (Builder.size s.1 ⟨0⟩, Builder.size s.1 ⟨16⟩)) = some (24, 8)
    ∧ ((run (⟨0, [], 0, 0⟩, []) (c4ops.take 4)).map fun s =>
      (Builder.size s.1 ⟨0⟩, Builder.size s.1 ⟨16⟩)) = some (34, 18)
    ∧ ((run (⟨0, [], 0, 0⟩, []) (c4ops.take 5)).map fun s =>
      (Builder.size s.1 ⟨0⟩, Builder.size s.1 ⟨16⟩)) = some (40, 18)
    ∧ (c4run.map fun s =>
      (Builder.size s.1 ⟨0⟩, Builder.size s.1 ⟨16⟩, s.1.builder_count))
      = some (40, 18, 1) := by
  decide

/-- C7: a builder's record address is the recomputed
base() + committed() + m_item_offset, with m_item_offset recorded as
written() − committed() at construction; an intervening reserve that
relocates the arena changes only the base, so the address resolves to
the same logical offset, whose bytes are untouched. -/
theorem C7_offset_addressing (b : Buffer) (parents : Chain)
    (H n newBase : Nat) :
    (openBuilder b parents H).2.item_offset = b.written - b.committed
    ∧ (∀ (b2 : Buffer) (bu : Builder),
        Builder.item_pos b2 bu = b2.base + b2.committed + bu.item_offset)
    ∧ ((b.relocate newBase).reserve_space n).committed = b.committed
    ∧ ((b.relocate newBase).reserve_space n).base = newBase
    ∧ (∀ bu : Builder,
        Builder.item_pos ((b.relocate newBase).reserve_space n) bu
            - ((b.relocate newBase).reserve_space n).base
          = Builder.item_pos b bu - b.base)
    ∧ (∀ (bu : Builder) (i : Nat), Builder.pos b bu + i < b.written →
        ((b.relocate newBase).reserve_space n).data.getD
            (Builder.pos b bu + i) 0
          = b.data.getD (Builder.pos b bu + i) 0) := by
  refine ⟨rfl, fun b2 bu => rfl, rfl, rfl, ?_, ?_⟩
  · intro bu
    show newBase + b.committed + bu.item_offset - newBase
      = b.base + b.committed + bu.item_offset - b.base
    omega
  · intro bu i hlt
    show (b.data ++ List.replicate n 0).getD (Builder.pos b bu + i) 0
      = b.data.getD (Builder.pos b bu + i) 0
    exact getD_append_left _ _ _ hlt

/-- Witness for C7: on `exBuf`, a relocating reserve of 8 bytes with new
base 2000 keeps the sub-record's logical offset and its header byte. -/
theorem C7_offset_addressing_witness :
    (openBuilder exBuf exChain 8).2.item_offset
        = exBuf.written - exBuf.committed
    ∧ Builder.item_pos ((exBuf.relocate 2000).reserve_space 8) ⟨16⟩
          - ((exBuf.relocate 2000).reserve_space 8).base
        = Builder.item_pos exBuf ⟨16⟩ - exBuf.base
    ∧ ((exBuf.relocate 2000).reserve_space 8).data.getD
          (Builder.pos exBuf ⟨16⟩ + 0) 0
        = exBuf.data.getD (Builder.pos exBuf ⟨16⟩ + 0) 0 := by
  have h := C7_offset_addressing exBuf exChain 8 8 2000
  exact ⟨h.1, h.2.2.2.2.1 ⟨16⟩, h.2.2.2.2.2 ⟨16⟩ 0 (by decide)⟩

theorem add_padding_count (b : Buffer) (chain : Chain) (self : Bool) :
    (add_padding b chain self).builder_count = b.builder_count := by
  cases chain with
  | nil => rfl
  | cons bu parents =>
      unfold add_padding
      dsimp only
      split
      · split
        · simp
        · cases parents with
          | nil => rfl
          | cons p ps => simp
      · rfl

theorem openChecked_eq_some (b : Buffer) (parents : Chain) (H : Nat)
    (r : Buffer × Builder) (h : openChecked b parents H = some r) :
    r = openBuilder b parents H := by
  cases parents with
  | nil =>
      by_cases hc : b.builder_count = 0
      · simp [openChecked, hc] at h
        exact h.symm
      · simp [openChecked, hc] at h
  | cons p ps =>
      by_cases hc : b.builder_count = 1
      · simp [openChecked, hc] at h
        exact h.symm
      · simp [openChecked, hc] at h

theorem step_count (s s2 : Buffer × Chain) (op : BuildOp)
    (hinv : s.1.builder_count = s.2.length) (h : step s op = some s2) :
    s2.1.builder_count = s2.2.length := by
  obtain ⟨b, chain⟩ := s
  cases op with
  | opn H =>
      simp only [step] at h
      cases hoc : openChecked b chain H with
      | none => rw [hoc] at h; simp at h
      | some r =>
          rw [hoc] at h
          simp only [Option.map_some'] at h
          cases h
          have hr := openChecked_eq_some b chain H r hoc
          subst hr
          simp only [List.length_cons]
          rw [openBuilder_count]
          simp only at hinv
          omega
  | app a =>
      cases chain with
      | nil => simp [step] at h
      | cons c rest =>
          simp only [step] at h
          cases h
          rw [runApp_eq]
          exact hinv
  | pad self =>
      cases chain with
      | nil => simp [step] at h
      | cons c rest =>
          simp only [step] at h
          cases h
          rw [add_padding_count]
          exact hinv
  | grow delta =>
      cases chain with
      | nil => simp [step] at h
      | cons c rest =>
          simp only [step] at h
          cases h
          rw [add_size_count]
          exact hinv
  | attach it =>
      cases chain with
      | nil => simp [step] at h
      | cons c rest =>
          simp only [step] at h
          cases h
          show (add_size _ _ _).builder_count = _
          rw [add_size_count, append_record_count]
          exact hinv
  | close =>
      cases chain with
      | nil => simp [step] at h
      | cons c rest =>
          simp only [step] at h
          cases h
          show b.builder_count - 1 = rest.length
          simp only [List.length_cons] at hinv
          omega

/-- C8: in instrumented builds, constructing a builder with no parent
fails fast unless the arena's open-depth counter is 0, and with a parent
unless it is exactly 1; construction increments and destruction
decrements the counter, so along every run of checked operations the
counter equals the number of currently open builders. -/
theorem C8_open_depth :
    (∀ (b : Buffer) (H : Nat), b.builder_count ≠ 0 →
      openChecked b [] H = none)
    ∧ (∀ (b : Buffer) (p : Builder) (ps : Chain) (H : Nat),
        b.builder_count ≠ 1 → openChecked b (p :: ps) H = none)
    ∧ (∀ (ops : List BuildOp) (s s2 : Buffer × Chain),
        s.1.builder_count = s.2.length → run s ops = some s2 →
        s2.1.builder_count = s2.2.length) := by
  refine ⟨?_, ?_, ?_⟩
  · intro b H hc
    simp [openChecked, hc]
  · intro b p ps H hc
    simp [openChecked, hc]
  · intro ops
    induction ops with
    | nil =>
        intro s s2 hinv h
        simp only [run] at h
        cases h
        exact hinv
    | cons op rest ih =>
        intro s s2 hinv h
        simp only [run] at h
        cases hstep : step s op with
        | none => rw [hstep] at h; simp at h
        | some s1 =>
            rw [hstep] at h
            simp only [Option.some_bind] at h
            exact ih s1 s2 (step_count s s1 op hinv hstep) h

/-- Witness for C8: opening a top-level builder on `exBuf` (counter 2)
fails fast; opening a sub-builder on `exBuf` fails fast; and the
counter tracks the number of open builders along the C4 run. -/
theorem C8_open_depth_witness :
    openChecked exBuf [] 16 = none
    ∧ openChecked exBuf exChain 8 = none
    ∧ (c4run.map fun s => (s.1.builder_count, s.2.length))
      = some (1, 1) := by
  refine ⟨C8_open_depth.1 exBuf 16 (by decide),
    C8_open_depth.2.1 exBuf ⟨16⟩ [⟨0⟩] 8 (by decide), ?_⟩
  cases hc : c4run with
  | none => exact absurd hc (by decide)
  | some s =>
      have h := C8_open_depth.2.2 c4ops (⟨0, [], 0, 0⟩, []) s rfl hc
      simp only [Option.map_some', Option.some_inj]
      have hlen : s.2.length = 1 := by
        have : (c4run.map fun s => s.2.length) = some 1 := by decide
        rw [hc] at this
        simpa using this
      rw [hlen] at h ⊢
      rw [h]

/-- Builder::add_padding in closed form: when the computed padding is
not the `align_bytes` sentinel, it reserves that many (zero) bytes at
the tail and propagates the count along this builder's chain (self
true) or the parent chain only (self false; `add_size` over the empty
parent chain is the identity, matching the `if (m_parent)` guard). -/
theorem add_padding_eq (b : Buffer) (bu : Builder) (parents : Chain)
    (self : Bool) :
    add_padding b (bu :: parents) self
      = if align_bytes - Builder.size b bu % align_bytes ≠ align_bytes
        then
          add_size
            (b.reserve_space (align_bytes - Builder.size b bu
              % align_bytes))
            (if self then bu :: parents else parents)
            (align_bytes - Builder.size b bu % align_bytes)
        else b := by
  have hb2 : ∀ n : Nat,
      ({ b.reserve_space n with
          data := writeBytes (b.reserve_space n).data b.written
            (List.replicate n 0) } : Buffer) = b.reserve_space n := by
    intro n
    show ({ b.reserve_space n with
      data := writeBytes (b.data ++ List.replicate n 0) b.data.length
        (List.replicate n 0) } : Buffer) = b.reserve_space n
    have h := writeBytes_append_replicate (List.replicate n 0) [] b.data
    simp only [List.length_replicate, List.append_nil] at h
    rw [h]
    rfl
  unfold add_padding
  dsimp only
  by_cases hc : align_bytes - Builder.size b bu % align_bytes
      ≠ align_bytes
  · rw [if_pos hc, if_pos hc]
    cases self with
    | true =>
        simp only [if_true]
        rw [hb2]
    | false =>
        simp only [Bool.false_eq_true, if_false]
        cases parents with
        | nil => exact hb2 _
        | cons p ps => rw [hb2]
  · rw [if_neg hc, if_neg hc]

/-- Builder operations never lower the written boundary, and
add_padding writes only at the tail and inside the propagated size
fields. -/
theorem add_padding_frame (b : Buffer) (bu : Builder) (parents : Chain)
    (self : Bool) :
    b.written ≤ (add_padding b (bu :: parents) self).written
    ∧ ∀ i, i < b.written →
      (∀ x ∈ bu :: parents,
        i < Builder.pos b x ∨ Builder.pos b x + 4 ≤ i) →
      (add_padding b (bu :: parents) self).data.getD i 0
        = b.data.getD i 0 := by
  rw [add_padding_eq]
  by_cases hc : align_bytes - Builder.size b bu % align_bytes
      ≠ align_bytes
  · rw [if_pos hc]
    constructor
    · have h1 := add_size_written
        (b.reserve_space (align_bytes - Builder.size b bu % align_bytes))
        (if self then bu :: parents else parents)
        (align_bytes - Builder.size b bu % align_bytes)
      rw [h1, reserve_space_written]
      omega
    · intro i hi hout
      rw [add_size_getD _ _ _ _ (by
        intro x hx
        have hx2 : x ∈ bu :: parents := by
          cases self with
          | true => simpa using hx
          | false =>
              simp only [Bool.false_eq_true, if_false] at hx
              exact List.mem_cons_of_mem _ hx
        have := hout x hx2
        simpa [Builder.pos] using this)]
      show (b.data ++ List.replicate _ 0).getD i 0 = b.data.getD i 0
      exact getD_append_left _ _ _ hi
  · rw [if_neg hc]
    exact ⟨Nat.le_refl _, fun i _ _ => rfl⟩

/-- C9: every Builder operation is append-only — the written boundary
never shrinks, and a byte that was already in the arena before the
operation is unchanged by it unless it lies in the 4-byte size field of
a currently open record's header.  New content therefore lands strictly
at the tail, in call order. -/
theorem C9_append_only_frame (b : Buffer) (chain : Chain) (op : BuildOp)
    (b2 : Buffer) (chain2 : Chain) (hcw : b.committed ≤ b.written)
    (hstep : step (b, chain) op = some (b2, chain2)) :
    b.written ≤ b2.written
    ∧ ∀ i, i < b.written →
        (∀ bu ∈ chain, i < Builder.pos b bu ∨ Builder.pos b bu + 4 ≤ i) →
        b2.data.getD i 0 = b.data.getD i 0 := by
  cases op with
  | opn H =>
      simp only [step] at hstep
      cases hoc : openChecked b chain H with
      | none => rw [hoc] at hstep; simp at hstep
      | some r =>
          rw [hoc] at hstep
          simp only [Option.map_some'] at hstep
          have hr := openChecked_eq_some b chain H r hoc
          subst hr
          cases hstep
          constructor
          · rw [openBuilder_written]
            omega
          · intro i hi hout
            show (writeLE32 (add_size (b.reserve_space H) chain H).data
              ((add_size (b.reserve_space H) chain H).committed
                + (b.written - b.committed)) H).getD i 0
              = b.data.getD i 0
            rw [getD_writeLE32_of_lt _ _ _ _ (by
              rw [add_size_committed, reserve_space_committed]
              omega)]
            rw [add_size_getD _ _ _ _ (by
              intro x hx
              have := hout x hx
              simpa [Builder.pos] using this)]
            show (b.data ++ List.replicate H 0).getD i 0
              = b.data.getD i 0
            exact getD_append_left _ _ _ hi
  | app a =>
      cases chain with
      | nil => simp [step] at hstep
      | cons c rest =>
          simp only [step] at hstep
          cases hstep
          rw [runApp_eq]
          constructor
          · show b.written ≤ (b.data ++ a.payload).length
            simp only [List.length_append, Buffer.written]
            omega
          · intro i hi _
            exact getD_append_left _ _ _ hi
  | pad self =>
      cases chain with
      | nil => simp [step] at hstep
      | cons c rest =>
          simp only [step] at hstep
          cases hstep
          exact add_padding_frame b c rest self
  | grow delta =>
      cases chain with
      | nil => simp [step] at hstep
      | cons c rest =>
          simp only [step] at hstep
          cases hstep
          constructor
          · rw [add_size_written]
          · intro i hi hout
            exact add_size_getD _ _ _ _ hout
  | attach it =>
      cases chain with
      | nil => simp [step] at hstep
      | cons c rest =>
          simp only [step] at hstep
          cases hstep
          constructor
          · show b.written
              ≤ (add_size (b.append_record it) _ _).written
            rw [add_size_written]
            show b.written ≤ (b.data ++ it.bytes).length
            simp only [List.length_append, Buffer.written]
            omega
          · intro i hi hout
            show (add_size (b.append_record it) (c :: rest)
              it.padded_size).data.getD i 0 = b.data.getD i 0
            rw [add_size_getD _ _ _ _ (by
              intro x hx
              have := hout x hx
              simpa [Builder.pos] using this)]
            exact getD_append_left _ _ _ hi
  | close =>
      cases chain with
      | nil => simp [step] at hstep
      | cons c rest =>
          simp only [step] at hstep
          cases hstep
          exact ⟨Nat.le_refl _, fun i _ _ => rfl⟩

/-- Witness for C9 at the grow step on `exBuf`: byte 4 (outside both
open size fields) is untouched and the written boundary does not
shrink. -/
theorem C9_append_only_frame_witness :
    exBuf.written ≤ (add_size exBuf exChain 5).written
    ∧ (add_size exBuf exChain 5).data.getD 4 0 = exBuf.data.getD 4 0 := by
  have h := C9_append_only_frame exBuf exChain (BuildOp.grow 5)
    (add_size exBuf exChain 5) exChain (by decide) rfl
  exact ⟨h.1, h.2 4 (by decide) (by decide)⟩

end OsmBuilder

namespace Conninfo

/-- The single-quote character (code point 39), kept out of the source
text as a literal. -/
def sq : Char := Char.ofNat 39

/-- The equals-sign character, as searched for by
`std::strchr(opt.db.c_str(), c)` in `build_conninfo`. -/
def eqc : Char := Char.ofNat 61

/-- The database options consumed by `build_conninfo`
(`database_options_t`): C strings modelled as their character lists. -/
structure database_options_t where
  db : List Char
  username : List Char
  password : List Char
  host : List Char
  port : List Char
deriving Repr, DecidableEq

/-- Modelled from its use in the source: `util::string_joiner_t{c}`
collects added items and renders them separated by the single
delimiter character. -/
def joinWith (delim : Char) (items : List (List Char)) : List Char :=
  List.intercalate [delim] items

/-- Rendering of `fmt::format("key='{}'", value)`: the key, an equals
sign, and the value in single quotes. -/
def kvQuoted (key value : List Char) : List Char :=
  key ++ [eqc, sq] ++ value ++ [sq]

/-- The fixed first joiner entry of `build_conninfo`. -/
def fallbackApp : List Char :=
  kvQuoted "fallback_application_name".toList "osm2pgsql".toList

/-- The client_encoding entry of `build_conninfo`. -/
def clientEnc : List Char := kvQuoted "client_encoding".toList "UTF8".toList

/-- build_conninfo from src/src/command-line-parser.cpp.  The
`compare_prefix` helper is `strncmp` over the first prefix.size bytes,
i.e. a list-prefix test (no argument contains a NUL byte). -/
def build_conninfo (opt : database_options_t) : List Char :=
  if "postgresql://".toList.isPrefixOf opt.db
      || "postgres://".toList.isPrefixOf opt.db then
    opt.db
  else
    let items0 := [fallbackApp]
    if opt.db.contains eqc then
      joinWith ' ' (items0 ++ [opt.db])
    else
      let i1 := items0 ++ [clientEnc]
      let i2 := if opt.db ≠ [] then
        i1 ++ [kvQuoted "dbname".toList opt.db] else i1
      let i3 := if opt.username ≠ [] then
        i2 ++ [kvQuoted "user".toList opt.username] else i2
      let i4 := if opt.password ≠ [] then
        i3 ++ [kvQuoted "password".toList opt.password] else i3
      let i5 := if opt.host ≠ [] then
        i4 ++ [kvQuoted "host".toList opt.host] else i4
      let i6 := if opt.port ≠ [] then
        i5 ++ [kvQuoted "port".toList opt.port] else i5
      joinWith ' ' i6

/-- The C10 claim's description of build_conninfo, written from its
words: return the db unchanged on a postgres URL; on a db containing an
equals sign, the fallback application name, a space, and the db string;
otherwise a space-joined string starting with the fallback application
name and client_encoding followed by exactly the non-empty entries, in
dbname, user, password, host, port order. -/
def conninfo_claim (opt : database_options_t) : List Char :=
  if "postgresql://".toList.isPrefixOf opt.db
      || "postgres://".toList.isPrefixOf opt.db then
    opt.db
  else if opt.db.contains eqc then
    fallbackApp ++ [' '] ++ opt.db
  else
    joinWith ' '
      ([fallbackApp, clientEnc]
        ++ List.filterMap
            (fun pr => if pr.2 = ([] : List Char) then none
              else some (kvQuoted pr.1 pr.2))
            [("dbname".toList, opt.db), ("user".toList, opt.username),
              ("password".toList, opt.password), ("host".toList, opt.host),
              ("port".toList, opt.port)])

/-- C10: build_conninfo behaves exactly as described — db returned
unchanged when it starts with a postgres URL scheme, prefixed with the
fallback application name when it already contains an equals sign, and
otherwise assembled as the space-joined non-empty entries in fixed
order. -/
theorem C10_build_conninfo (opt : database_options_t) :
    build_conninfo opt = conninfo_claim opt := by
  unfold build_conninfo conninfo_claim
  by_cases hurl : ("postgresql://".toList.isPrefixOf opt.db
      || "postgres://".toList.isPrefixOf opt.db) = true
  · rw [if_pos hurl, if_pos hurl]
  · rw [if_neg hurl, if_neg hurl]
    by_cases heq : opt.db.contains eqc = true
    · rw [if_pos heq, if_pos heq]
      show joinWith ' ' [fallbackApp, opt.db] = _
      simp [joinWith, List.intercalate, List.intersperse]
    · rw [if_neg heq, if_neg heq]
      dsimp only
      by_cases h1 : opt.db = []
      all_goals by_cases h2 : opt.username = []
      all_goals by_cases h3 : opt.password = []
      all_goals by_cases h4 : opt.host = []
      all_goals by_cases h5 : opt.port = []
      all_goals simp [h1, h2, h3, h4, h5]

end Conninfo
